import Mathlib

/-!
Verification of the motor-controller trajectory and kinematics library
(`trajectories.py`, `robots.py`).

Shallow embedding conventions:
* Python floats are embedded as real numbers (`ℝ`).
* A spline object's state `(n, knots, coeffs, start)` is passed explicitly:
  `knots : ℕ → ℝ × ℝ` maps the row index to the `(time, position)` pair of
  the numpy array `self.knots` (rows `≥ n` are irrelevant), and
  `coeffs : ℕ → Fin 4 → ℝ` maps the segment index to the row
  `self.coeffs[i]` (slot 0 = constant term, slot 1 = linear, slot 2 =
  quadratic, slot 3 = cubic, exactly as stored by the source).
* Fallible code is embedded with `Option`: `Spline.getPolynomial` returns
  `none` where the source returns the scalar pair `(0, 0)`, after which
  `Spline.getVal` would call `.copy()` on a plain `int` and raise an
  `AttributeError`; that crash is embedded as `Spline.getVal = none`.
* Python's float modulo `a % b` (for `b > 0`) is `a - b * ⌊a / b⌋`.
-/

open scoped Classical

noncomputable section

/-- Python float modulo: `a % b = a - b * floor (a / b)` (exact for `b > 0`,
which is the only case `PeriodicCubicSpline.getVal` uses). -/
def pymod (a b : ℝ) : ℝ := a - b * ⌊a / b⌋

namespace Spline

/-- One pass of the in-place derivative loop of `Spline.getVal`:
`p1[0] = p1[1]; p1[1] = p1[2]*2; p1[2] = p1[3]*3; p1[3] = 0`. -/
def derivStep (p : Fin 4 → ℝ) : Fin 4 → ℝ := ![p 1, p 2 * 2, p 3 * 3, 0]

/-- Evaluation `p1[0] + u*p1[1] + u^2*p1[2] + u^3*p1[3]` from `Spline.getVal`. -/
def polyEval (p : Fin 4 → ℝ) (u : ℝ) : ℝ :=
  p 0 + u * p 1 + u ^ 2 * p 2 + u ^ 3 * p 3

/-- `Spline.getPolynomial`: after shifting `t` by `start`, scan segments
`k = 0, …, n-2` and return the first one with `knots[k,0] < t` and
`knots[k+1,0] > t`, together with the normalized time.  The source's
fallback `return 0, 0` (a scalar pair, not an array) is embedded as
`none`. -/
def getPolynomial (n : ℕ) (knots : ℕ → ℝ × ℝ) (coeffs : ℕ → Fin 4 → ℝ)
    (start t : ℝ) : Option (ℝ × (Fin 4 → ℝ)) :=
  let tt := t - start
  (List.range (n - 1)).findSome? fun k =>
    if (knots k).1 < tt ∧ (knots (k + 1)).1 > tt then
      some (tt - (knots k).1, coeffs k)
    else none

/-- `Spline.getVal`.  `end` is `knots[n-1, 0] + start` as set by
`Spline.__init__`.  Inside the domain the source copies the polynomial
returned by `getPolynomial`, shifts it `d` times and evaluates it; when
`getPolynomial` falls through to its scalar `(0, 0)` fallback, the source
raises (`int` has no `.copy()`), embedded as `none`. -/
def getVal (n : ℕ) (knots : ℕ → ℝ × ℝ) (coeffs : ℕ → Fin 4 → ℝ)
    (start t : ℝ) (d : ℕ) : Option ℝ :=
  let tEnd := (knots (n - 1)).1 + start
  if t ≤ start then some (if d = 0 then (knots 0).2 else 0)
  else if t ≥ tEnd then some (if d = 0 then (knots (n - 1)).2 else 0)
  else
    match getPolynomial n knots coeffs start t with
    | none => none
    | some (u, p) => some (polyEval (derivStep^[d] p) u)

end Spline

namespace LinearSpline

/-- `LinearSpline.updatePolynomials`: segment `i` stores
`[x0, (x1 - x0)/(t1 - t0), 0, 0]`. -/
def coeffs (knots : ℕ → ℝ × ℝ) : ℕ → Fin 4 → ℝ := fun i =>
  ![(knots i).2,
    ((knots (i + 1)).2 - (knots i).2) / ((knots (i + 1)).1 - (knots i).1),
    0, 0]

end LinearSpline

namespace TrapezoidalVelocity

/-- `self.D = self.x_end - self.x_src`. -/
def D (xsrc xend : ℝ) : ℝ := xend - xsrc

/-- `self.Tacc`: `vMax / accMax` when `|D| > vMax*vMax/accMax`, else
`sqrt(|D| / accMax)`. -/
def Tacc (xsrc xend vMax accMax : ℝ) : ℝ :=
  if |D xsrc xend| > vMax * vMax / accMax then vMax / accMax
  else Real.sqrt (|D xsrc xend| / accMax)

/-- `self.Dacc = accMax * Tacc * Tacc / 2`. -/
def Dacc (xsrc xend vMax accMax : ℝ) : ℝ :=
  accMax * Tacc xsrc xend vMax accMax * Tacc xsrc xend vMax accMax / 2

/-- `self.end = start + 2*Tacc + (|D| - 2*Dacc)/vMax`. -/
def tEnd (xsrc xend vMax accMax start : ℝ) : ℝ :=
  start + 2 * Tacc xsrc xend vMax accMax +
    (|D xsrc xend| - 2 * Dacc xsrc xend vMax accMax) / vMax

/-- `TrapezoidalVelocity.getVal`.  Note that the zone tests and zone
formulas of the source use the absolute time `t`, not `t - self.start`
(`np.sign` is embedded as `Real.sign`, which agrees with it on every
real). -/
def getVal (xsrc xend vMax accMax start t : ℝ) (d : ℕ) : ℝ :=
  if d > 2 then 0
  else if t < start then (if d = 0 then xsrc else 0)
  else if t > tEnd xsrc xend vMax accMax start then (if d = 0 then xend else 0)
  else
    let Ds := Real.sign (D xsrc xend)
    let T := tEnd xsrc xend vMax accMax start - start
    let Ta := Tacc xsrc xend vMax accMax
    if t ≤ Ta then
      if d = 0 then xsrc + Ds * (accMax * t * t) / 2
      else if d = 1 then Ds * accMax * t
      else Ds * accMax
    else if t > T - Ta then
      if d = 0 then xend - Ds * (accMax * (T - t) * (T - t)) / 2
      else if d = 1 then Ds * accMax * (T - t)
      else -Ds * accMax
    else
      if d = 0 then xsrc + Ds * (Dacc xsrc xend vMax accMax + vMax * (t - Ta))
      else if d = 1 then Ds * vMax
      else 0

end TrapezoidalVelocity

namespace NaturalCubicSpline

/-- The matrix `A` filled by `NaturalCubicSpline.updatePolynomials`.
Row `4*s + r` belongs to segment `s` (`delta_t = knots[s+1,0] - knots[s,0]`):
`r = 0` encodes `x(0) = x_s`, `r = 1` encodes `x(delta_t) = x_{s+1}`, and for
`s < n-2` rows `r = 2, 3` encode C¹ and C² continuity with segment `s+1`.
The loop leaves rows `4*(n-2)+2` and `4*(n-2)+3` (that is, `A[-2]` and
`A[-1]`) zero; the code then sets `A[-2, 1] = 2` and
`A[-1, -4:-2] = [6*delta_t, 2]` with `delta_t = knots[-1,0] - knots[-2,0]`,
which for row `A[-1]` are the columns `4*(n-2)` and `4*(n-2)+1`.
Within a segment block the column order is `[t^3, t^2, t, 1]`. -/
def A (n : ℕ) (knots : ℕ → ℝ × ℝ) :
    Matrix (Fin (4 * (n - 1))) (Fin (4 * (n - 1))) ℝ := fun i j =>
  let s := i.val / 4
  let r := i.val % 4
  let dt := (knots (s + 1)).1 - (knots s).1
  if r = 0 then (if j.val = 4 * s + 3 then 1 else 0)
  else if r = 1 then
    (if j.val = 4 * s then dt ^ 3 else if j.val = 4 * s + 1 then dt ^ 2
     else if j.val = 4 * s + 2 then dt else if j.val = 4 * s + 3 then 1 else 0)
  else if r = 2 then
    (if s < n - 2 then
      (if j.val = 4 * s then 3 * dt ^ 2 else if j.val = 4 * s + 1 then 2 * dt
       else if j.val = 4 * s + 2 then 1 else if j.val = 4 * s + 6 then -1
       else 0)
     else (if j.val = 1 then 2 else 0))
  else
    (if s < n - 2 then
      (if j.val = 4 * s then 6 * dt else if j.val = 4 * s + 1 then 2
       else if j.val = 4 * s + 5 then -2 else 0)
     else (if j.val = 4 * s then 6 * dt else if j.val = 4 * s + 1 then 2
       else 0))

/-- The right-hand side `B`: `B[4*i] = x_i`, `B[4*i+1] = x_{i+1}`, other
entries (including both trailing boundary rows) stay `0`. -/
def B (n : ℕ) (knots : ℕ → ℝ × ℝ) : Fin (4 * (n - 1)) → ℝ := fun i =>
  let s := i.val / 4
  if i.val % 4 = 0 then (knots s).2
  else if i.val % 4 = 1 then (knots (s + 1)).2 else 0

/-- The flat solution vector `np.linalg.solve(A, B)` (meaningful whenever
`A` is invertible, which is exactly when `np.linalg.solve` succeeds). -/
def sol (n : ℕ) (knots : ℕ → ℝ × ℝ) : Fin (4 * (n - 1)) → ℝ :=
  (A n knots)⁻¹.mulVec (B n knots)

/-- The coefficient store written back by `updatePolynomials`:
`self.coeffs[i, j] = coeffs[4*i + (3-j)]` (the source reverses the order,
`coeffs[i,0] = sol[4i+3]`, …, `coeffs[i,3] = sol[4i]`). -/
def coeffs (n : ℕ) (knots : ℕ → ℝ × ℝ) : ℕ → Fin 4 → ℝ := fun i j =>
  if h : 4 * i + (3 - j.val) < 4 * (n - 1) then sol n knots ⟨_, h⟩ else 0

end NaturalCubicSpline

namespace PeriodicCubicSpline

/-- The matrix `A` of `PeriodicCubicSpline.updatePolynomials`: identical to
the natural-spline system except for the two trailing rows, which the code
fills as `A[-2, 1] = 2; A[-2, -4:-2] = [-6*dt, -2]` and
`A[-1, 2] = 1; A[-1, -4:] = [-3*dt^2, -2*dt, -1, 0]` (the later slice
assignment wins on overlap, which matters when `n = 2`). -/
def A (n : ℕ) (knots : ℕ → ℝ × ℝ) :
    Matrix (Fin (4 * (n - 1))) (Fin (4 * (n - 1))) ℝ := fun i j =>
  let s := i.val / 4
  let r := i.val % 4
  let dt := (knots (s + 1)).1 - (knots s).1
  if r = 0 then (if j.val = 4 * s + 3 then 1 else 0)
  else if r = 1 then
    (if j.val = 4 * s then dt ^ 3 else if j.val = 4 * s + 1 then dt ^ 2
     else if j.val = 4 * s + 2 then dt else if j.val = 4 * s + 3 then 1 else 0)
  else if r = 2 then
    (if s < n - 2 then
      (if j.val = 4 * s then 3 * dt ^ 2 else if j.val = 4 * s + 1 then 2 * dt
       else if j.val = 4 * s + 2 then 1 else if j.val = 4 * s + 6 then -1
       else 0)
     else (if j.val = 4 * s then -6 * dt else if j.val = 4 * s + 1 then -2
       else if j.val = 1 then 2 else 0))
  else
    (if s < n - 2 then
      (if j.val = 4 * s then 6 * dt else if j.val = 4 * s + 1 then 2
       else if j.val = 4 * s + 5 then -2 else 0)
     else (if j.val = 4 * s then -3 * dt ^ 2 else if j.val = 4 * s + 1 then -2 * dt
       else if j.val = 4 * s + 2 then -1 else if j.val = 4 * s + 3 then 0
       else if j.val = 2 then 1 else 0))

/-- The right-hand side, identical to the natural-spline one. -/
def B (n : ℕ) (knots : ℕ → ℝ × ℝ) : Fin (4 * (n - 1)) → ℝ :=
  NaturalCubicSpline.B n knots

/-- `np.linalg.solve(A, B)` for the periodic system. -/
def sol (n : ℕ) (knots : ℕ → ℝ × ℝ) : Fin (4 * (n - 1)) → ℝ :=
  (A n knots)⁻¹.mulVec (B n knots)

/-- Coefficient store, reversed per segment as in the source. -/
def coeffs (n : ℕ) (knots : ℕ → ℝ × ℝ) : ℕ → Fin 4 → ℝ := fun i j =>
  if h : 4 * i + (3 - j.val) < 4 * (n - 1) then sol n knots ⟨_, h⟩ else 0

/-- `PeriodicCubicSpline.getVal`: wraps the query time by the period
`D = end - start = knots[n-1, 0]` and delegates to `Spline.getVal`. -/
def getVal (n : ℕ) (knots : ℕ → ℝ × ℝ) (start t : ℝ) (d : ℕ) : Option ℝ :=
  let P := ((knots (n - 1)).1 + start) - start
  Spline.getVal n knots (coeffs n knots) start (start + pymod (t - start) P) d

end PeriodicCubicSpline

/-- `math.atan2 y x`: the angle in `(-π, π]` of the point `(x, y)`,
embedded as the complex argument of `x + y·i`. -/
def atan2 (y x : ℝ) : ℝ := Complex.arg ⟨x, y⟩

/-- `cosineLaw` from `robots.py`: solutions `(alpha, beta)` of the planar
two-link problem, empty when the distance to the target is outside
`[|L1 - L2|, L1 + L2]`; otherwise one solution, plus its mirror when
`|alpha|` exceeds the `1e-9` tolerance. -/
def cosineLaw (x y L1 L2 : ℝ) : List (ℝ × ℝ) :=
  let dist := Real.sqrt (x ^ 2 + y ^ 2)
  if dist < |L1 - L2| ∨ dist > L1 + L2 then []
  else
    let phi := atan2 y x
    let alpha := Real.arccos ((L1 ^ 2 + dist ^ 2 - L2 ^ 2) / (2 * L1 * dist))
    let beta := Real.arccos ((L1 ^ 2 + L2 ^ 2 - dist ^ 2) / (2 * L1 * L2))
    (phi + alpha, beta - Real.pi) ::
      (if |alpha| > 1e-9 then [(phi - alpha, Real.pi - beta)] else [])

namespace ht

/-- Modelled from the spec: `homogeneous_transform.translation` is not under
`src/`; per the spec it is the 4×4 homogeneous transform whose linear part
is the identity and whose translation part is `v`. -/
def translation (v : Fin 3 → ℝ) : Matrix (Fin 4) (Fin 4) ℝ :=
  Matrix.of ![![1, 0, 0, v 0], ![0, 1, 0, v 1], ![0, 0, 1, v 2], ![0, 0, 0, 1]]

/-- Modelled from the spec: `homogeneous_transform.rot_z` is not under
`src/`; per the spec it is the homogeneous rotation about the z axis. -/
def rot_z (θ : ℝ) : Matrix (Fin 4) (Fin 4) ℝ :=
  Matrix.of ![![Real.cos θ, -Real.sin θ, 0, 0],
              ![Real.sin θ, Real.cos θ, 0, 0],
              ![0, 0, 1, 0], ![0, 0, 0, 1]]

end ht

namespace RobotRT

def W : ℝ := 0.05

def L0 : ℝ := 1.0

def L1 : ℝ := 0.2

/-- `self.L2 = 0.25 + self.W/2`, the distance including the offset. -/
def L2 : ℝ := 0.25 + W / 2

def max_q1 : ℝ := 0.25

def T_0_1 : Matrix (Fin 4) (Fin 4) ℝ := ht.translation ![0, 0, L0 + W / 2]

def T_1_2 : Matrix (Fin 4) (Fin 4) ℝ := ht.translation ![L1, 0, 0]

def T_2_E : Matrix (Fin 4) (Fin 4) ℝ :=
  ht.translation ![0, -L2, 0] * ht.rot_z Real.pi

/-- `RobotRT.getJointsLimits`: rows `(min, max)` per joint. -/
def getJointsLimits : Fin 2 → ℝ × ℝ := ![(-Real.pi, Real.pi), (0, 0.55)]

/-- `RobotRT.getBaseFromToolTransform`. -/
def getBaseFromToolTransform (q : Fin 2 → ℝ) : Matrix (Fin 4) (Fin 4) ℝ :=
  (T_0_1 * ht.rot_z (q 0)) * (T_1_2 * ht.translation ![q 1, 0, 0]) * T_2_E

/-- `RobotRT.computeMGD`: first two coordinates of the tool position. -/
def computeMGD (q : Fin 2 → ℝ) : Fin 2 → ℝ :=
  let tool_pos := (getBaseFromToolTransform q).mulVec ![0, 0, 0, 1]
  ![tool_pos 0, tool_pos 1]

/-- `RobotRT.analyticalMGI`. -/
def analyticalMGI (target : Fin 2 → ℝ) : ℕ × Option (Fin 2 → ℝ) :=
  let dist := Real.sqrt (target 0 ^ 2 + target 1 ^ 2)
  let min_dist := Real.sqrt (L1 ^ 2 + L2 ^ 2)
  let max_dist := Real.sqrt ((L1 + max_q1) ^ 2 + L2 ^ 2)
  if dist < min_dist ∨ dist > max_dist then (0, none)
  else
    let q1 := Real.sqrt (dist ^ 2 - L2 ^ 2) - L1
    let q0 := atan2 (target 1) (target 0) + atan2 L2 (L1 + q1)
    (1, some ![q0, q1])

end RobotRT

namespace RobotTrajectory

/-- Modelled from the spec: `np.linalg.pinv` (external numpy routine) is
the Moore–Penrose pseudoinverse, characterized by the four Penrose
equations; embedded by choice of a solution when one exists.  No claim in
this development evaluates it. -/
def pinv {k : ℕ} (M : Matrix (Fin k) (Fin k) ℝ) : Matrix (Fin k) (Fin k) ℝ :=
  if h : ∃ X, M * X * M = M ∧ X * M * X = X ∧
      Matrix.transpose (M * X) = M * X ∧ Matrix.transpose (X * M) = X * M
    then h.choose else 0

/-- The slice of a robot model used by `RobotTrajectory`.  All three robot
models of the source have equal joint and operational dimension, so a
single dimension parameter is used. -/
structure Model (nd : ℕ) where
  computeMGD : (Fin nd → ℝ) → Fin nd → ℝ
  computeJacobian : (Fin nd → ℝ) → Matrix (Fin nd) (Fin nd) ℝ
  analyticalMGI : (Fin nd → ℝ) → ℤ × Option (Fin nd → ℝ)

/-- The state of a constructed `RobotTrajectory`: the model, the planning
space string, and the per-dimension 1-D trajectories (each abstracted as
its `getVal` function `t ↦ d ↦ value`). -/
structure State (nd : ℕ) where
  model : Model nd
  planification_space : String
  trajectories : Fin nd → ℝ → ℕ → ℝ

variable {nd : ℕ}

/-- `RobotTrajectory.getPlanificationVal`: the vector of per-dimension
values at `t` for derivative order `degree`. -/
def getPlanificationVal (rt : State nd) (t : ℝ) (degree : ℕ) : Fin nd → ℝ :=
  fun i => rt.trajectories i t degree

/-- `RobotTrajectory.getOperationalTarget`. -/
def getOperationalTarget (rt : State nd) (t : ℝ) : Fin nd → ℝ :=
  if rt.planification_space = "operational" then getPlanificationVal rt t 0
  else rt.model.computeMGD (getPlanificationVal rt t 0)

/-- `RobotTrajectory.getJointTarget`: `analyticalMGI(...)[1]` may be
`None`, so the result is an `Option` (the joint-planning branch always
returns a value). -/
def getJointTarget (rt : State nd) (t : ℝ) : Option (Fin nd → ℝ) :=
  if rt.planification_space = "joint" then some (getPlanificationVal rt t 0)
  else (rt.model.analyticalMGI (getPlanificationVal rt t 0)).2

/-- `RobotTrajectory.getOperationalVelocity`:
`computeJacobian(getJointTarget(t)) @ value`.  In the only reachable case
(`planification_space = "joint"`) `getJointTarget` is always `some`. -/
def getOperationalVelocity (rt : State nd) (t : ℝ) : Option (Fin nd → ℝ) :=
  if rt.planification_space = "operational" then
    some (getPlanificationVal rt t 1)
  else
    (getJointTarget rt t).map fun q =>
      (rt.model.computeJacobian q).mulVec (getPlanificationVal rt t 1)

/-- `RobotTrajectory.getJointVelocity`. -/
def getJointVelocity (rt : State nd) (t : ℝ) : Option (Fin nd → ℝ) :=
  if rt.planification_space = "joint" then some (getPlanificationVal rt t 1)
  else
    (getJointTarget rt t).map fun q =>
      (pinv (rt.model.computeJacobian q)).mulVec (getPlanificationVal rt t 1)

/-- `RobotTrajectory.getOperationalAcc`: note the source reuses the
degree-0 conversion map `computeMGD` on the acceleration vector. -/
def getOperationalAcc (rt : State nd) (t : ℝ) : Option (Fin nd → ℝ) :=
  if rt.planification_space = "operational" then
    some (getPlanificationVal rt t 2)
  else some (rt.model.computeMGD (getPlanificationVal rt t 2))

/-- `RobotTrajectory.getJointAcc`: the source reuses
`analyticalMGI(...)[1]` on the acceleration vector. -/
def getJointAcc (rt : State nd) (t : ℝ) : Option (Fin nd → ℝ) :=
  if rt.planification_space = "joint" then some (getPlanificationVal rt t 2)
  else (rt.model.analyticalMGI (getPlanificationVal rt t 2)).2

/-- `RobotTrajectory.getVal`: same-space queries read the per-dimension
trajectory; cross-space queries convert degree by degree, and `value`
stays `None` (so the query returns `None`) for any degree above 2. -/
def getVal (rt : State nd) (t : ℝ) (dim : Fin nd) (degree : ℕ)
    (space : String) : Option ℝ :=
  if space = rt.planification_space then some (rt.trajectories dim t degree)
  else
    let value : Option (Fin nd → ℝ) :=
      if space = "operational" then
        if degree = 0 then some (getOperationalTarget rt t)
        else if degree = 1 then getOperationalVelocity rt t
        else if degree = 2 then getOperationalAcc rt t
        else none
      else if space = "joint" then
        if degree = 0 then getJointTarget rt t
        else if degree = 1 then getJointVelocity rt t
        else if degree = 2 then getJointAcc rt t
        else none
      else none
    value.map fun v => v dim

end RobotTrajectory

/-! ### Helper lemmas about the Python float modulo -/

lemma pymod_nonneg (a : ℝ) {b : ℝ} (hb : 0 < b) : 0 ≤ pymod a b := by
  have h := Int.floor_le (a / b)
  have : b * (⌊a / b⌋ : ℝ) ≤ b * (a / b) := by
    exact mul_le_mul_of_nonneg_left h hb.le
  rw [mul_div_cancel₀ _ hb.ne'] at this
  simpa [pymod] using this

lemma pymod_lt (a : ℝ) {b : ℝ} (hb : 0 < b) : pymod a b < b := by
  have h := Int.lt_floor_add_one (a / b)
  have : b * (a / b) < b * ((⌊a / b⌋ : ℝ) + 1) := by
    exact mul_lt_mul_of_pos_left h hb
  rw [mul_div_cancel₀ _ hb.ne'] at this
  simp only [pymod]
  nlinarith

lemma pymod_idem (a : ℝ) {b : ℝ} (hb : 0 < b) :
    pymod (pymod a b) b = pymod a b := by
  have h0 := pymod_nonneg a hb
  have h1 := pymod_lt a hb
  have hfloor : ⌊pymod a b / b⌋ = 0 := by
    rw [Int.floor_eq_zero_iff]
    constructor
    · positivity
    · rw [div_lt_one hb]
      simpa using h1
  have hunfold : pymod (pymod a b) b = pymod a b - b * ⌊pymod a b / b⌋ := rfl
  rw [hunfold, hfloor]
  simp

lemma pymod_add_right (a : ℝ) {b : ℝ} (hb : 0 < b) :
    pymod (a + b) b = pymod a b := by
  have : (a + b) / b = a / b + 1 := by field_simp
  simp only [pymod, this, Int.floor_add_one]
  push_cast
  ring

lemma pymod_zero_left (b : ℝ) : pymod 0 b = 0 := by
  simp [pymod]

lemma pymod_self {b : ℝ} (hb : 0 < b) : pymod b b = 0 := by
  have h := pymod_add_right 0 hb
  rw [zero_add] at h
  rw [h, pymod_zero_left]

/-- C8: for every `PeriodicCubicSpline` with period `P = end - start > 0`,
`getVal (t, d)` equals `getVal (start + (t - start) mod P, d)`; hence
`getVal (t + P, d) = getVal (t, d)` for every `t`, and
`getVal (start, d) = getVal (end, d)` for `d ∈ {0, 1, 2}`. -/
theorem periodicCubicSpline_getVal_wraps (n : ℕ) (knots : ℕ → ℝ × ℝ)
    (start t : ℝ) (d : ℕ) (hP : 0 < (knots (n - 1)).1 + start - start) :
    (PeriodicCubicSpline.getVal n knots start t d =
      PeriodicCubicSpline.getVal n knots start
        (start + pymod (t - start) ((knots (n - 1)).1 + start - start)) d) ∧
    (PeriodicCubicSpline.getVal n knots start
        (t + ((knots (n - 1)).1 + start - start)) d =
      PeriodicCubicSpline.getVal n knots start t d) ∧
    (d ≤ 2 → PeriodicCubicSpline.getVal n knots start start d =
      PeriodicCubicSpline.getVal n knots start ((knots (n - 1)).1 + start) d) := by
  set P := (knots (n - 1)).1 + start - start with hPdef
  refine ⟨?_, ?_, fun _ => ?_⟩
  · show Spline.getVal _ _ _ _ (start + pymod (t - start) P) d =
      Spline.getVal _ _ _ _ (start + pymod (start + pymod (t - start) P - start) P) d
    rw [show start + pymod (t - start) P - start = pymod (t - start) P by ring,
      pymod_idem _ hP]
  · show Spline.getVal _ _ _ _ (start + pymod (t + P - start) P) d =
      Spline.getVal _ _ _ _ (start + pymod (t - start) P) d
    rw [show t + P - start = (t - start) + P by ring, pymod_add_right _ hP]
  · show Spline.getVal _ _ _ _ (start + pymod (start - start) P) d =
      Spline.getVal _ _ _ _ (start + pymod ((knots (n - 1)).1 + start - start) P) d
    rw [show start - start = (0 : ℝ) by ring, pymod_zero_left, ← hPdef,
      pymod_self hP]

/-- C8 witness: a concrete periodic spline (knots at times 0 and 1,
start 0) instantiating the theorem at `t = 0.3`, `d = 1`. -/
theorem periodicCubicSpline_getVal_wraps_witness :
    PeriodicCubicSpline.getVal 2 (fun i => if i = 0 then (0, 0) else (1, 1)) 0
        (0 + ((fun i : ℕ => if i = 0 then ((0 : ℝ), (0 : ℝ)) else (1, 1)) (2 - 1)).1 + 0 - 0) 1 =
      PeriodicCubicSpline.getVal 2 (fun i => if i = 0 then (0, 0) else (1, 1)) 0 0 1 := by
  have h := (periodicCubicSpline_getVal_wraps 2
    (fun i => if i = 0 then (0, 0) else (1, 1)) 0 0 1 (by norm_num)).2.1
  simpa using h

/-! ### Helper lemmas for the concrete trapezoid `knots = [0, 0.1]`,
`vMax = 10`, `accMax = 100` (the spec's scenario 6) -/

lemma trap01_absD : |(0.1 : ℝ) - 0| = 0.1 := by
  rw [sub_zero, abs_of_pos]
  norm_num

lemma trap01_Tacc : TrapezoidalVelocity.Tacc 0 0.1 10 100 = Real.sqrt 0.001 := by
  rw [TrapezoidalVelocity.Tacc, TrapezoidalVelocity.D,
    if_neg (by rw [trap01_absD]; norm_num)]
  congr 1
  rw [trap01_absD]
  norm_num

lemma trap01_Dacc : TrapezoidalVelocity.Dacc 0 0.1 10 100 = 0.05 := by
  rw [TrapezoidalVelocity.Dacc, trap01_Tacc]
  rw [mul_assoc, Real.mul_self_sqrt (by norm_num)]
  norm_num

lemma trap01_tEnd (start : ℝ) :
    TrapezoidalVelocity.tEnd 0 0.1 10 100 start =
      start + 2 * Real.sqrt 0.001 := by
  rw [TrapezoidalVelocity.tEnd, trap01_Tacc, trap01_Dacc,
    TrapezoidalVelocity.D, trap01_absD]
  norm_num

lemma sqrt001_sq : Real.sqrt 0.001 * Real.sqrt 0.001 = 0.001 :=
  Real.mul_self_sqrt (by norm_num)

/-- C4 counterexample: the boundary rule of the claim fails on the code at
two concrete inputs.  (a) For the trapezoid `knots = [0, 0.1]`,
`vMax = 10`, `accMax = 100`, `start = 0`, the outer tests are strict, so
`getVal (start, 2) = sign(D) * accMax = 100`, not `0`.  (b) For a
`PeriodicCubicSpline` with knots `(0, 0), (1, 1)` and `start = 0`,
`getVal (end, 0)` wraps to the first knot and returns `0`, not the last
knot's position `1`. -/
theorem boundary_rule_counterexample :
    (TrapezoidalVelocity.getVal 0 0.1 10 100 0 0 2 = 100 ∧ (100 : ℝ) ≠ 0) ∧
    (PeriodicCubicSpline.getVal 2 (fun i => if i = 0 then (0, 0) else (1, 1))
        0 1 0 = some 0 ∧ (0 : ℝ) ≠ 1) := by
  refine ⟨⟨?_, by norm_num⟩, ⟨?_, by norm_num⟩⟩
  · have hs0 : (0 : ℝ) ≤ Real.sqrt 0.001 := Real.sqrt_nonneg _
    rw [TrapezoidalVelocity.getVal, if_neg (by norm_num), if_neg (by norm_num),
      if_neg (by rw [trap01_tEnd]; push_neg; linarith)]
    simp only [trap01_tEnd, trap01_Tacc, TrapezoidalVelocity.D]
    rw [if_pos hs0, if_neg (by norm_num), if_neg (by norm_num)]
    have : Real.sign (0.1 - 0) = 1 := Real.sign_of_pos (by norm_num)
    rw [this]
    norm_num
  · rw [PeriodicCubicSpline.getVal]
    have hP : ((fun i : ℕ => if i = 0 then ((0 : ℝ), (0 : ℝ)) else (1, 1)) (2 - 1)).1 + 0 - 0
        = 1 := by norm_num
    rw [hP]
    have hm : pymod (1 - 0 : ℝ) 1 = 0 := by
      rw [show (1 - 0 : ℝ) = 1 by norm_num]
      exact pymod_self (by norm_num)
    rw [hm, Spline.getVal, if_pos (by norm_num)]
    norm_num

/-- C4 amended: the boundary rule as stated holds for the shared
`Spline.getVal` implementation (all non-periodic spline subclasses); for
`TrapezoidalVelocity` the outer tests are strict, so the rule holds for
`t < start` and, given `vMax > 0` and `accMax > 0`, for `t > end` (at
`t = start` and `t = end` the zone formulas apply instead; the
`PeriodicCubicSpline` override wraps `t` before applying the rule). -/
theorem boundary_rule_amended (n : ℕ) (knots : ℕ → ℝ × ℝ)
    (coeffs : ℕ → Fin 4 → ℝ) (start t : ℝ) (d : ℕ) :
    (t ≤ start → Spline.getVal n knots coeffs start t d =
      some (if d = 0 then (knots 0).2 else 0)) ∧
    (¬ t ≤ start → t ≥ (knots (n - 1)).1 + start →
      Spline.getVal n knots coeffs start t d =
        some (if d = 0 then (knots (n - 1)).2 else 0)) ∧
    (∀ xsrc xend vMax accMax : ℝ, t < start →
      TrapezoidalVelocity.getVal xsrc xend vMax accMax start t d =
        (if d = 0 then xsrc else 0)) ∧
    (∀ xsrc xend vMax accMax : ℝ, 0 < vMax → 0 < accMax →
      t > TrapezoidalVelocity.tEnd xsrc xend vMax accMax start →
      TrapezoidalVelocity.getVal xsrc xend vMax accMax start t d =
        (if d = 0 then xend else 0)) := by
  refine ⟨fun h => ?_, fun h1 h2 => ?_, fun xsrc xend vMax accMax h => ?_,
    fun xsrc xend vMax accMax hv ha h => ?_⟩
  · rw [Spline.getVal, if_pos h]
  · rw [Spline.getVal, if_neg h1, if_pos h2]
  · by_cases hd : d > 2
    · rw [TrapezoidalVelocity.getVal, if_pos hd, if_neg (by omega)]
    · rw [TrapezoidalVelocity.getVal, if_neg hd, if_pos h]
  · have hTa : 0 ≤ TrapezoidalVelocity.Tacc xsrc xend vMax accMax := by
      rw [TrapezoidalVelocity.Tacc]
      by_cases hc : |TrapezoidalVelocity.D xsrc xend| > vMax * vMax / accMax
      · rw [if_pos hc]; positivity
      · rw [if_neg hc]; exact Real.sqrt_nonneg _
    have hrest : 0 ≤ (|TrapezoidalVelocity.D xsrc xend| -
        2 * TrapezoidalVelocity.Dacc xsrc xend vMax accMax) / vMax := by
      rw [TrapezoidalVelocity.Dacc, TrapezoidalVelocity.Tacc]
      by_cases hc : |TrapezoidalVelocity.D xsrc xend| > vMax * vMax / accMax
      · rw [if_pos hc]
        apply div_nonneg _ hv.le
        have : accMax * (vMax / accMax) * (vMax / accMax) = vMax * vMax / accMax := by
          field_simp
        rw [this]
        linarith
      · rw [if_neg hc]
        apply div_nonneg _ hv.le
        rw [mul_assoc, Real.mul_self_sqrt (by positivity)]
        rw [show accMax * (|TrapezoidalVelocity.D xsrc xend| / accMax) =
          |TrapezoidalVelocity.D xsrc xend| by field_simp]
        linarith
    have hend : start ≤ TrapezoidalVelocity.tEnd xsrc xend vMax accMax start := by
      rw [TrapezoidalVelocity.tEnd]
      linarith
    by_cases hd : d > 2
    · rw [TrapezoidalVelocity.getVal, if_pos hd, if_neg (by omega)]
    · rw [TrapezoidalVelocity.getVal, if_neg hd,
        if_neg (by push_neg; linarith), if_pos h]

/-- C4 amended witness: the four clauses of the amended boundary rule at
concrete inputs (a two-knot spline with values 5 and 7 and a trapezoid
from 3 to 5 with `vMax = 10`, `accMax = 100`). -/
theorem boundary_rule_amended_witness :
    (Spline.getVal 2 (fun i => if i = 0 then (0, 5) else (1, 7))
        (LinearSpline.coeffs (fun i => if i = 0 then (0, 5) else (1, 7)))
        0 (-1) 0 = some 5) ∧
    (Spline.getVal 2 (fun i => if i = 0 then (0, 5) else (1, 7))
        (LinearSpline.coeffs (fun i => if i = 0 then (0, 5) else (1, 7)))
        0 2 0 = some 7) ∧
    (TrapezoidalVelocity.getVal 3 5 10 100 0 (-1) 0 = 3) ∧
    (TrapezoidalVelocity.getVal 3 5 10 100 0 10 1 = 0) := by
  have hknots : ((fun i : ℕ => if i = 0 then ((0 : ℝ), (5 : ℝ)) else (1, 7)) 0).2 = 5 := by
    norm_num
  refine ⟨?_, ?_, ?_, ?_⟩
  · have h := (boundary_rule_amended 2 (fun i => if i = 0 then (0, 5) else (1, 7))
      (LinearSpline.coeffs (fun i => if i = 0 then (0, 5) else (1, 7)))
      0 (-1) 0).1 (by norm_num)
    simpa using h
  · have h := (boundary_rule_amended 2 (fun i => if i = 0 then (0, 5) else (1, 7))
      (LinearSpline.coeffs (fun i => if i = 0 then (0, 5) else (1, 7)))
      0 2 0).2.1 (by norm_num) (by norm_num)
    simpa using h
  · have h := ((boundary_rule_amended 2 (fun i => if i = 0 then (0, 5) else (1, 7))
      (LinearSpline.coeffs (fun i => if i = 0 then (0, 5) else (1, 7)))
      0 (-1) 0).2.2.1) 3 5 10 100 (by norm_num)
    simpa using h
  · have htEnd : TrapezoidalVelocity.tEnd 3 5 10 100 0 = 0.3 := by
      rw [TrapezoidalVelocity.tEnd, TrapezoidalVelocity.Dacc,
        TrapezoidalVelocity.Tacc, TrapezoidalVelocity.D,
        if_pos (by norm_num)]
      norm_num
    have h := ((boundary_rule_amended 2 (fun i => if i = 0 then (0, 5) else (1, 7))
      (LinearSpline.coeffs (fun i => if i = 0 then (0, 5) else (1, 7)))
      0 10 1).2.2.2) 3 5 10 100 (by norm_num) (by norm_num)
      (by rw [htEnd]; norm_num)
    simpa using h

/-- C3: the zone tests and zone formulas of
`TrapezoidalVelocity.getVal` use the absolute time `t`, not
`t' = t - start`.  At `knots = [0, 0.1]`, `vMax = 10`, `accMax = 100`,
`start = 1`, `t = 1.01` (so `t' = 0.01 ≤ Tacc`), the claim's acceleration
formula gives `x_src + sign(D)·½·accMax·t'² = 0.005 > 0`, while the code
lands in the deceleration branch with the absolute `t` and returns a value
below `0` (about `-44.7`). -/
theorem trapezoidal_zone_uses_absolute_time :
    TrapezoidalVelocity.getVal 0 0.1 10 100 1 1.01 0 < 0 ∧
    (0 : ℝ) + Real.sign (TrapezoidalVelocity.D 0 0.1) * (1 / 2) * 100 *
      (1.01 - 1) ^ 2 = 0.005 := by
  have hs0 : (0 : ℝ) ≤ Real.sqrt 0.001 := Real.sqrt_nonneg _
  have hss := sqrt001_sq
  have hsu : Real.sqrt 0.001 ≤ 0.04 := by nlinarith
  have hsl : (0.005 : ℝ) ≤ Real.sqrt 0.001 := by nlinarith
  have hsign : Real.sign (TrapezoidalVelocity.D 0 0.1) = 1 := by
    rw [TrapezoidalVelocity.D]
    exact Real.sign_of_pos (by norm_num)
  constructor
  · rw [TrapezoidalVelocity.getVal, if_neg (by norm_num), if_neg (by norm_num),
      if_neg (by rw [trap01_tEnd]; push_neg; nlinarith)]
    simp only [trap01_tEnd, trap01_Tacc, hsign]
    rw [if_neg (by push_neg; nlinarith), if_pos (by nlinarith),
      if_pos trivial]
    nlinarith
  · rw [hsign]
    norm_num

/-- C6: for every `TrapezoidalVelocity` with `vMax > 0`, `accMax > 0`:
`Tacc = vMax/accMax` when `|D| > vMax²/accMax` and
`Tacc = √(|D|/accMax)` otherwise; `Dacc = ½·accMax·Tacc²`; and
`end - start = 2·Tacc + (|D| - 2·Dacc)/vMax`.  For
`knots = [0, 0.1]`, `vMax = 10`, `accMax = 100` (start 0):
`Tacc = √0.001`, `end - start = 2·Tacc`, and
`getVal(Tacc, 1) = accMax·Tacc = 100·√0.001 ≈ 3.162`. -/
theorem trapezoidal_profile_parameters :
    (∀ xsrc xend vMax accMax start : ℝ, 0 < vMax → 0 < accMax →
      ((|TrapezoidalVelocity.D xsrc xend| > vMax ^ 2 / accMax →
          TrapezoidalVelocity.Tacc xsrc xend vMax accMax = vMax / accMax) ∧
       (¬ |TrapezoidalVelocity.D xsrc xend| > vMax ^ 2 / accMax →
          TrapezoidalVelocity.Tacc xsrc xend vMax accMax =
            Real.sqrt (|TrapezoidalVelocity.D xsrc xend| / accMax)) ∧
       TrapezoidalVelocity.Dacc xsrc xend vMax accMax =
         accMax * TrapezoidalVelocity.Tacc xsrc xend vMax accMax ^ 2 / 2 ∧
       TrapezoidalVelocity.tEnd xsrc xend vMax accMax start - start =
         2 * TrapezoidalVelocity.Tacc xsrc xend vMax accMax +
           (|TrapezoidalVelocity.D xsrc xend| -
             2 * TrapezoidalVelocity.Dacc xsrc xend vMax accMax) / vMax)) ∧
    (TrapezoidalVelocity.Tacc 0 0.1 10 100 = Real.sqrt 0.001 ∧
     TrapezoidalVelocity.tEnd 0 0.1 10 100 0 - 0 = 2 * Real.sqrt 0.001 ∧
     TrapezoidalVelocity.getVal 0 0.1 10 100 0 (Real.sqrt 0.001) 1 =
       100 * Real.sqrt 0.001 ∧
     3.16 < 100 * Real.sqrt 0.001 ∧ 100 * Real.sqrt 0.001 < 3.17) := by
  have hs0 : (0 : ℝ) ≤ Real.sqrt 0.001 := Real.sqrt_nonneg _
  have hss := sqrt001_sq
  have hsign : Real.sign (TrapezoidalVelocity.D 0 0.1) = 1 := by
    rw [TrapezoidalVelocity.D]
    exact Real.sign_of_pos (by norm_num)
  refine ⟨fun xsrc xend vMax accMax start hv ha => ⟨fun hc => ?_, fun hc => ?_, ?_, ?_⟩,
    trap01_Tacc, ?_, ?_, ?_, ?_⟩
  · rw [TrapezoidalVelocity.Tacc, if_pos (by rw [← pow_two]; exact hc)]
  · rw [TrapezoidalVelocity.Tacc, if_neg (by rw [← pow_two]; exact hc)]
  · rw [TrapezoidalVelocity.Dacc]
    ring
  · rw [TrapezoidalVelocity.tEnd]
    ring
  · rw [trap01_tEnd]
    ring
  · rw [TrapezoidalVelocity.getVal, if_neg (by norm_num),
      if_neg (by push_neg; exact hs0),
      if_neg (by rw [trap01_tEnd]; push_neg; nlinarith)]
    simp only [trap01_tEnd, trap01_Tacc, hsign]
    rw [if_pos le_rfl, if_neg (by norm_num), if_pos trivial]
    ring
  · nlinarith
  · nlinarith

/-- C6 witness: the general profile formulas instantiated at the concrete
trapezoid from 3 to 5 with `vMax = 10`, `accMax = 100`, `start = 0`. -/
theorem trapezoidal_profile_parameters_witness :
    TrapezoidalVelocity.tEnd 3 5 10 100 0 - 0 =
      2 * TrapezoidalVelocity.Tacc 3 5 10 100 +
        (|TrapezoidalVelocity.D 3 5| -
          2 * TrapezoidalVelocity.Dacc 3 5 10 100) / 10 :=
  (trapezoidal_profile_parameters.1 3 5 10 100 0 (by norm_num)
    (by norm_num)).2.2.2

/-- C1: evaluating a spline exactly at an interior knot does not return
normally.  For the linear spline through `(0,0), (1,1), (2,0)` with
`start = 0`, at `t = 1` (the interior knot, where both adjacent segments
take the value `1`) `getPolynomial` misses every open segment and falls
through to its scalar `(0, 0)` fallback, on which `getVal` raises an
`AttributeError` (`int` has no `.copy()`), embedded as `none`. -/
theorem spline_getVal_interior_knot_crash :
    Spline.getVal 3
      (fun i => if i = 0 then (0, 0) else if i = 1 then (1, 1) else (2, 0))
      (LinearSpline.coeffs
        (fun i => if i = 0 then (0, 0) else if i = 1 then (1, 1) else (2, 0)))
      0 1 0 = none := by
  have hp : Spline.getPolynomial 3
      (fun i => if i = 0 then (0, 0) else if i = 1 then (1, 1) else (2, 0))
      (LinearSpline.coeffs
        (fun i => if i = 0 then (0, 0) else if i = 1 then (1, 1) else (2, 0)))
      0 1 = none := by
    rw [Spline.getPolynomial]
    rw [show List.range (3 - 1) = [0, 1] from rfl]
    simp only [List.findSome?_cons, List.findSome?_nil]
    rw [if_neg (by norm_num), if_neg (by norm_num)]
  rw [Spline.getVal, if_neg (by norm_num), if_neg (by norm_num), hp]

/-! ### Helper lemmas for the RT robot kinematics -/

lemma ht_translation_mulVec (v : Fin 3 → ℝ) (w : Fin 4 → ℝ) :
    (ht.translation v).mulVec w =
      ![w 0 + v 0 * w 3, w 1 + v 1 * w 3, w 2 + v 2 * w 3, w 3] := by
  funext i
  fin_cases i <;>
    simp [ht.translation, Matrix.mulVec, Matrix.dotProduct,
      Fin.sum_univ_four] <;> ring

lemma ht_rot_z_mulVec (θ : ℝ) (w : Fin 4 → ℝ) :
    (ht.rot_z θ).mulVec w =
      ![Real.cos θ * w 0 - Real.sin θ * w 1,
        Real.sin θ * w 0 + Real.cos θ * w 1, w 2, w 3] := by
  funext i
  fin_cases i <;>
    simp [ht.rot_z, Matrix.mulVec, Matrix.dotProduct,
      Fin.sum_univ_four] <;> ring

/-- Closed form of `RobotRT.computeMGD`: with `q = (q0, q1)`,
`x = (L1 + q1)·cos q0 + L2·sin q0` and
`y = (L1 + q1)·sin q0 - L2·cos q0`. -/
lemma robotRT_computeMGD_eq (q : Fin 2 → ℝ) :
    RobotRT.computeMGD q =
      ![(RobotRT.L1 + q 1) * Real.cos (q 0) + RobotRT.L2 * Real.sin (q 0),
        (RobotRT.L1 + q 1) * Real.sin (q 0) - RobotRT.L2 * Real.cos (q 0)] := by
  rw [RobotRT.computeMGD, RobotRT.getBaseFromToolTransform, RobotRT.T_2_E,
    RobotRT.T_0_1, RobotRT.T_1_2]
  simp only [← Matrix.mulVec_mulVec, ht_translation_mulVec, ht_rot_z_mulVec]
  funext i
  fin_cases i <;>
    simp [Matrix.cons_val_zero, Matrix.cons_val_one, Matrix.head_cons] <;>
    ring

/-- C2: the joint vector `q = (0, 0.5)` lies inside
`RobotRT.getJointsLimits` (`q2 ∈ [0, 0.55]`), yet
`analyticalMGI (computeMGD q)` returns solution count `0` (with no joint
vector): the IK reachability test uses `max_q1 = 0.25`, which is smaller
than the prismatic joint limit `0.55`. -/
theorem robotRT_inLimits_ik_unreachable :
    ((RobotRT.getJointsLimits 0).1 ≤ 0 ∧ (0 : ℝ) ≤ (RobotRT.getJointsLimits 0).2) ∧
    ((RobotRT.getJointsLimits 1).1 ≤ 0.5 ∧ (0.5 : ℝ) ≤ (RobotRT.getJointsLimits 1).2) ∧
    RobotRT.analyticalMGI (RobotRT.computeMGD ![0, 0.5]) = (0, none) := by
  have hpi := Real.pi_pos
  have hmgd : RobotRT.computeMGD ![0, 0.5] = ![0.7, -0.275] := by
    rw [robotRT_computeMGD_eq]
    funext i
    fin_cases i <;>
      simp [RobotRT.L1, RobotRT.L2, RobotRT.W] <;> norm_num
  refine ⟨⟨?_, ?_⟩, ⟨?_, ?_⟩, ?_⟩
  · simp [RobotRT.getJointsLimits]
    linarith
  · simp [RobotRT.getJointsLimits]
    linarith
  · simp [RobotRT.getJointsLimits]
    norm_num
  · simp [RobotRT.getJointsLimits]
    norm_num
  · rw [hmgd, RobotRT.analyticalMGI]
    rw [if_pos]
    apply Or.inr
    have h1 : ((![(0.7 : ℝ), -0.275]) 0) ^ 2 + ((![(0.7 : ℝ), -0.275]) 1) ^ 2
        = 0.565625 := by
      simp
      norm_num
    have h2 : (RobotRT.L1 + RobotRT.max_q1) ^ 2 + RobotRT.L2 ^ 2 = 0.278125 := by
      rw [RobotRT.L1, RobotRT.L2, RobotRT.W, RobotRT.max_q1]
      norm_num
    rw [h1, h2]
    exact Real.sqrt_lt_sqrt (by norm_num) (by norm_num)

/-- C5: `RobotRT.analyticalMGI` on target `(x, y)` with
`d = √(x² + y²)`: when `d < √(L1² + L2²)` or
`d > √((L1 + max_q1)² + L2²)` (with `L1 = 0.2`, `L2 = 0.275`,
`max_q1 = 0.25`) the result is `(0, none)`; otherwise it is
`(1, (q1, q2))` with `q2 = √(d² - L2²) - L1` and
`q1 = atan2(y, x) + atan2(L2, L1 + q2)`. -/
theorem robotRT_analyticalMGI_formula (x y : ℝ) :
    (Real.sqrt (x ^ 2 + y ^ 2) < Real.sqrt (0.2 ^ 2 + 0.275 ^ 2) ∨
       Real.sqrt (x ^ 2 + y ^ 2) > Real.sqrt ((0.2 + 0.25) ^ 2 + 0.275 ^ 2) →
      RobotRT.analyticalMGI ![x, y] = (0, none)) ∧
    (¬ (Real.sqrt (x ^ 2 + y ^ 2) < Real.sqrt (0.2 ^ 2 + 0.275 ^ 2) ∨
        Real.sqrt (x ^ 2 + y ^ 2) > Real.sqrt ((0.2 + 0.25) ^ 2 + 0.275 ^ 2)) →
      RobotRT.analyticalMGI ![x, y] =
        (1, some ![atan2 y x +
            atan2 0.275 (0.2 +
              (Real.sqrt (Real.sqrt (x ^ 2 + y ^ 2) ^ 2 - 0.275 ^ 2) - 0.2)),
          Real.sqrt (Real.sqrt (x ^ 2 + y ^ 2) ^ 2 - 0.275 ^ 2) - 0.2])) := by
  have hL1 : RobotRT.L1 = 0.2 := rfl
  have hL2 : RobotRT.L2 = 0.275 := by
    rw [RobotRT.L2, RobotRT.W]
    norm_num
  have hmq : RobotRT.max_q1 = 0.25 := rfl
  have hx : (![x, y] : Fin 2 → ℝ) 0 = x := rfl
  have hy : (![x, y] : Fin 2 → ℝ) 1 = y := rfl
  rw [RobotRT.analyticalMGI, hx, hy, hL1, hL2, hmq]
  constructor
  · intro h
    rw [if_pos h]
  · intro h
    rw [if_neg h]

/-- C5 witness: at `(10, 0)` the distance `10` exceeds
`√((L1 + max_q1)² + L2²)` and the result is `(0, none)`; at `(0.5, 0)`
the distance `0.5` lies in the reachable band and the closed-form
solution is returned. -/
theorem robotRT_analyticalMGI_formula_witness :
    RobotRT.analyticalMGI ![10, 0] = (0, none) ∧
    RobotRT.analyticalMGI ![0.5, 0] =
      (1, some ![atan2 0 0.5 +
          atan2 0.275 (0.2 +
            (Real.sqrt (Real.sqrt ((0.5 : ℝ) ^ 2 + 0 ^ 2) ^ 2 - 0.275 ^ 2) - 0.2)),
        Real.sqrt (Real.sqrt ((0.5 : ℝ) ^ 2 + 0 ^ 2) ^ 2 - 0.275 ^ 2) - 0.2]) := by
  have h100 : Real.sqrt ((10 : ℝ) ^ 2 + 0 ^ 2) = 10 := by
    rw [show ((10 : ℝ) ^ 2 + 0 ^ 2) = 10 ^ 2 by norm_num]
    exact Real.sqrt_sq (by norm_num)
  have h05 : Real.sqrt ((0.5 : ℝ) ^ 2 + 0 ^ 2) = 0.5 := by
    rw [show ((0.5 : ℝ) ^ 2 + 0 ^ 2) = 0.5 ^ 2 by norm_num]
    exact Real.sqrt_sq (by norm_num)
  constructor
  · exact (robotRT_analyticalMGI_formula 10 0).1 (Or.inr (by
      rw [h100]
      calc Real.sqrt ((0.2 + 0.25) ^ 2 + 0.275 ^ 2)
          < Real.sqrt (10 ^ 2) := Real.sqrt_lt_sqrt (by norm_num) (by norm_num)
        _ = 10 := Real.sqrt_sq (by norm_num)))
  · exact (robotRT_analyticalMGI_formula 0.5 0).2 (by
      rw [h05]
      push_neg
      constructor
      · calc Real.sqrt (0.2 ^ 2 + 0.275 ^ 2)
            ≤ Real.sqrt (0.5 ^ 2) := Real.sqrt_le_sqrt (by norm_num)
          _ = 0.5 := Real.sqrt_sq (by norm_num)
      · calc (0.5 : ℝ) = Real.sqrt (0.5 ^ 2) := (Real.sqrt_sq (by norm_num)).symm
          _ ≤ Real.sqrt ((0.2 + 0.25) ^ 2 + 0.275 ^ 2) :=
            Real.sqrt_le_sqrt (by norm_num))

/-- C9: cross-space queries of `RobotTrajectory.getVal`.  With degree 1,
`space = "operational"`, `planification_space = "joint"`, the value is
`(J(q(t)) · q̇(t))[dim]`; with degree 2 cross-space the degree-0
conversion map is reused on the planning-space acceleration vector
(`computeMGD` towards operational, `analyticalMGI(...)[1]` towards
joint, with no `J̇·q̇` term); with any degree ≥ 3 cross-space the query
returns `none`. -/
theorem robotTrajectory_cross_space (nd : ℕ) (rt : RobotTrajectory.State nd)
    (t : ℝ) (dim : Fin nd) (degree : ℕ) :
    (rt.planification_space = "joint" →
      RobotTrajectory.getVal rt t dim 1 "operational" =
        some ((rt.model.computeJacobian
            (RobotTrajectory.getPlanificationVal rt t 0)).mulVec
          (RobotTrajectory.getPlanificationVal rt t 1) dim)) ∧
    (rt.planification_space = "joint" →
      RobotTrajectory.getVal rt t dim 2 "operational" =
        some (rt.model.computeMGD
          (RobotTrajectory.getPlanificationVal rt t 2) dim)) ∧
    (rt.planification_space = "operational" →
      RobotTrajectory.getVal rt t dim 2 "joint" =
        (rt.model.analyticalMGI
          (RobotTrajectory.getPlanificationVal rt t 2)).2.map fun v => v dim) ∧
    (3 ≤ degree → ∀ space : String,
      space = "operational" ∨ space = "joint" →
      space ≠ rt.planification_space →
      RobotTrajectory.getVal rt t dim degree space = none) := by
  refine ⟨fun h => ?_, fun h => ?_, fun h => ?_, fun h3 space hsp hne => ?_⟩
  · rw [RobotTrajectory.getVal, h, if_neg (by decide), if_pos rfl,
      if_neg (by decide), if_pos rfl, RobotTrajectory.getOperationalVelocity,
      h, if_neg (by decide), RobotTrajectory.getJointTarget, h, if_pos rfl]
    rfl
  · rw [RobotTrajectory.getVal, h, if_neg (by decide), if_pos rfl,
      if_neg (by decide), if_neg (by decide), if_pos rfl,
      RobotTrajectory.getOperationalAcc, h, if_neg (by decide)]
    rfl
  · rw [RobotTrajectory.getVal, h, if_neg (by decide), if_neg (by decide),
      if_pos rfl, if_neg (by decide), if_neg (by decide), if_pos rfl,
      RobotTrajectory.getJointAcc, h, if_neg (by decide)]
  · rcases hsp with hs | hs <;> subst hs <;>
      rw [RobotTrajectory.getVal, if_neg hne] <;>
      [rw [if_pos rfl, if_neg (by omega), if_neg (by omega), if_neg (by omega)];
       rw [if_neg (by decide), if_pos rfl, if_neg (by omega),
         if_neg (by omega), if_neg (by omega)]] <;>
      rfl

/-- C9 witness: a one-dimensional joint-planned trajectory with
`computeMGD v = 2·v`, constant Jacobian `3` and trajectories
`t, d ↦ t + d`, instantiated at `t = 1`: the operational velocity is
`J·q̇ = 3·2 = 6`, the operational acceleration reuses `computeMGD` on
`q̈ = 3` giving `6`, the joint acceleration of an operationally-planned
copy maps through `analyticalMGI`, and a degree-3 cross-space query
returns `none`. -/
theorem robotTrajectory_cross_space_witness :
    (RobotTrajectory.getVal
      (⟨⟨fun v _ => 2 * v 0, fun _ _ _ => 3, fun v => (1, some fun _ => v 0)⟩,
        "joint", fun _ t d => t + d⟩ : RobotTrajectory.State 1)
      1 0 1 "operational" = some 6) ∧
    (RobotTrajectory.getVal
      (⟨⟨fun v _ => 2 * v 0, fun _ _ _ => 3, fun v => (1, some fun _ => v 0)⟩,
        "joint", fun _ t d => t + d⟩ : RobotTrajectory.State 1)
      1 0 3 "operational" = none) := by
  constructor
  · have h := (robotTrajectory_cross_space 1
      (⟨⟨fun v _ => 2 * v 0, fun _ _ _ => 3, fun v => (1, some fun _ => v 0)⟩,
        "joint", fun _ t d => t + d⟩ : RobotTrajectory.State 1) 1 0 3).1 rfl
    rw [h]
    simp [RobotTrajectory.getPlanificationVal, Matrix.mulVec, Matrix.dotProduct]
    norm_num
  · exact (robotTrajectory_cross_space 1
      (⟨⟨fun v _ => 2 * v 0, fun _ _ _ => 3, fun v => (1, some fun _ => v 0)⟩,
        "joint", fun _ t d => t + d⟩ : RobotTrajectory.State 1) 1 0 3).2.2.2
      (by omega) "operational" (Or.inl rfl) (by decide)

/-- C7: whenever the `4(n-1) × 4(n-1)` system of
`NaturalCubicSpline.updatePolynomials` is solvable (the matrix is
invertible, which is exactly when `np.linalg.solve` succeeds), the
computed coefficients satisfy the natural boundary conditions: the
quadratic coefficient of segment 0 vanishes (`x″₀(0) = 0`) and
`6·c3·Δt + 2·c2 = 0` for the last segment
(`x″_{n-2}(Δt_{n-2}) = 0`). -/
theorem naturalCubicSpline_natural_boundary (n : ℕ) (knots : ℕ → ℝ × ℝ)
    (hn : 2 ≤ n) (hdet : IsUnit (NaturalCubicSpline.A n knots).det) :
    NaturalCubicSpline.coeffs n knots 0 2 = 0 ∧
    6 * NaturalCubicSpline.coeffs n knots (n - 2) 3 *
        ((knots (n - 1)).1 - (knots (n - 2)).1) +
      2 * NaturalCubicSpline.coeffs n knots (n - 2) 2 = 0 := by
  have hAc : (NaturalCubicSpline.A n knots).mulVec (NaturalCubicSpline.sol n knots)
      = NaturalCubicSpline.B n knots := by
    rw [NaturalCubicSpline.sol, Matrix.mulVec_mulVec,
      Matrix.mul_nonsing_inv _ hdet, Matrix.one_mulVec]
  have hi2 : 4 * (n - 1) - 2 < 4 * (n - 1) := by omega
  have hi1 : 4 * (n - 1) - 1 < 4 * (n - 1) := by omega
  have h1N : 1 < 4 * (n - 1) := by omega
  have hja : 4 * (n - 2) < 4 * (n - 1) := by omega
  have hjb : 4 * (n - 2) + 1 < 4 * (n - 1) := by omega
  have hs2 : (4 * (n - 1) - 2) / 4 = n - 2 := by omega
  have hr2 : (4 * (n - 1) - 2) % 4 = 2 := by omega
  have hs1 : (4 * (n - 1) - 1) / 4 = n - 2 := by omega
  have hr1 : (4 * (n - 1) - 1) % 4 = 3 := by omega
  have hne_ab : (⟨4 * (n - 2), hja⟩ : Fin (4 * (n - 1))) ≠ ⟨4 * (n - 2) + 1, hjb⟩ := by
    simp only [ne_eq, Fin.mk.injEq]
    omega
  -- row `A[-2]` of the system states `2 * sol[1] = 0`
  have hrow2 : ∀ j : Fin (4 * (n - 1)),
      NaturalCubicSpline.A n knots ⟨4 * (n - 1) - 2, hi2⟩ j =
        if j = ⟨1, h1N⟩ then (2 : ℝ) else 0 := by
    intro j
    simp only [NaturalCubicSpline.A, hr2, hs2]
    norm_num [Fin.ext_iff]
  have h2 := congrFun hAc ⟨4 * (n - 1) - 2, hi2⟩
  rw [Matrix.mulVec] at h2
  simp only [Matrix.dotProduct] at h2
  have hsum2 : ∑ j, NaturalCubicSpline.A n knots ⟨4 * (n - 1) - 2, hi2⟩ j *
      NaturalCubicSpline.sol n knots j =
      2 * NaturalCubicSpline.sol n knots ⟨1, h1N⟩ := by
    have heq : ∀ j : Fin (4 * (n - 1)),
        NaturalCubicSpline.A n knots ⟨4 * (n - 1) - 2, hi2⟩ j *
          NaturalCubicSpline.sol n knots j =
        if j = ⟨1, h1N⟩ then 2 * NaturalCubicSpline.sol n knots j else 0 := by
      intro j
      rw [hrow2 j]
      rcases eq_or_ne j ⟨1, h1N⟩ with hj | hj
      · rw [if_pos hj, if_pos hj]
      · rw [if_neg hj, if_neg hj, zero_mul]
    rw [Finset.sum_congr rfl fun j _ => heq j]
    exact Fintype.sum_ite_eq' _ _
  have hB2 : NaturalCubicSpline.B n knots ⟨4 * (n - 1) - 2, hi2⟩ = 0 := by
    simp only [NaturalCubicSpline.B, hr2]
    norm_num
  rw [hsum2, hB2] at h2
  -- row `A[-1]` states `6*dt*sol[4(n-2)] + 2*sol[4(n-2)+1] = 0`
  have hrow1 : ∀ j : Fin (4 * (n - 1)),
      NaturalCubicSpline.A n knots ⟨4 * (n - 1) - 1, hi1⟩ j =
        if j = ⟨4 * (n - 2), hja⟩ then
          6 * ((knots (n - 2 + 1)).1 - (knots (n - 2)).1)
        else if j = ⟨4 * (n - 2) + 1, hjb⟩ then (2 : ℝ) else 0 := by
    intro j
    simp only [NaturalCubicSpline.A, hr1, hs1]
    norm_num [Fin.ext_iff]
  have h1 := congrFun hAc ⟨4 * (n - 1) - 1, hi1⟩
  rw [Matrix.mulVec] at h1
  simp only [Matrix.dotProduct] at h1
  have hsum1 : ∑ j, NaturalCubicSpline.A n knots ⟨4 * (n - 1) - 1, hi1⟩ j *
      NaturalCubicSpline.sol n knots j =
      6 * ((knots (n - 2 + 1)).1 - (knots (n - 2)).1) *
          NaturalCubicSpline.sol n knots ⟨4 * (n - 2), hja⟩ +
        2 * NaturalCubicSpline.sol n knots ⟨4 * (n - 2) + 1, hjb⟩ := by
    have heq : ∀ j : Fin (4 * (n - 1)),
        NaturalCubicSpline.A n knots ⟨4 * (n - 1) - 1, hi1⟩ j *
          NaturalCubicSpline.sol n knots j =
        (if j = ⟨4 * (n - 2), hja⟩ then
            6 * ((knots (n - 2 + 1)).1 - (knots (n - 2)).1) *
              NaturalCubicSpline.sol n knots j
          else 0) +
        (if j = ⟨4 * (n - 2) + 1, hjb⟩ then
            2 * NaturalCubicSpline.sol n knots j else 0) := by
      intro j
      rw [hrow1 j]
      rcases eq_or_ne j ⟨4 * (n - 2), hja⟩ with hj1 | hj1
      · rw [if_pos hj1, if_pos hj1,
          if_neg (fun hh => hne_ab (hj1.symm.trans hh)), add_zero]
      · rw [if_neg hj1, if_neg hj1, zero_add]
        rcases eq_or_ne j ⟨4 * (n - 2) + 1, hjb⟩ with hj2 | hj2
        · rw [if_pos hj2, if_pos hj2]
        · rw [if_neg hj2, if_neg hj2, zero_mul]
    rw [Finset.sum_congr rfl fun j _ => heq j, Finset.sum_add_distrib,
      Fintype.sum_ite_eq' _ _, Fintype.sum_ite_eq' _ _]
  have hB1 : NaturalCubicSpline.B n knots ⟨4 * (n - 1) - 1, hi1⟩ = 0 := by
    simp only [NaturalCubicSpline.B, hr1]
    norm_num
  rw [hsum1, hB1] at h1
  -- translate the two row equations into the coefficient store
  have hc02 : NaturalCubicSpline.coeffs n knots 0 2 =
      NaturalCubicSpline.sol n knots ⟨1, h1N⟩ := by
    simp only [NaturalCubicSpline.coeffs,
      show 4 * 0 + (3 - ((2 : Fin 4)).val) = 1 from rfl]
    rw [dif_pos h1N]
  have hc3 : NaturalCubicSpline.coeffs n knots (n - 2) 3 =
      NaturalCubicSpline.sol n knots ⟨4 * (n - 2), hja⟩ := by
    simp only [NaturalCubicSpline.coeffs,
      show ∀ m : ℕ, 4 * m + (3 - ((3 : Fin 4)).val) = 4 * m from fun m => rfl]
    rw [dif_pos hja]
  have hc2' : NaturalCubicSpline.coeffs n knots (n - 2) 2 =
      NaturalCubicSpline.sol n knots ⟨4 * (n - 2) + 1, hjb⟩ := by
    simp only [NaturalCubicSpline.coeffs,
      show ∀ m : ℕ, 4 * m + (3 - ((2 : Fin 4)).val) = 4 * m + 1 from fun m => rfl]
    rw [dif_pos hjb]
  have hn1 : n - 2 + 1 = n - 1 := by omega
  rw [hn1] at h1
  constructor
  · rw [hc02]
    linarith
  · rw [hc3, hc2']
    linear_combination h1

/-- C7 witness: the two-knot natural spline through `(0,0), (1,1)`; an
explicit right inverse shows its 4×4 system matrix is invertible, so the
hypothesis holds and the first segment's quadratic coefficient is 0. -/
theorem naturalCubicSpline_natural_boundary_witness :
    NaturalCubicSpline.coeffs 2 (fun i => if i = 0 then (0, 0) else (1, 1)) 0 2
      = 0 := by
  have hA : NaturalCubicSpline.A 2 (fun i => if i = 0 then (0, 0) else (1, 1)) =
      Matrix.of ![![0, 0, 0, 1], ![1, 1, 1, 1], ![0, 2, 0, 0], ![6, 2, 0, 0]] := by
    funext i j
    fin_cases i <;> fin_cases j <;>
      norm_num [NaturalCubicSpline.A, Fin.ext_iff]
  have hinv : NaturalCubicSpline.A 2 (fun i => if i = 0 then (0, 0) else (1, 1)) *
      Matrix.of ![![0, 0, -1/6, 1/6], ![0, 0, 1/2, 0],
        ![-1, 1, -1/3, -1/6], ![1, 0, 0, 0]] = 1 := by
    rw [hA]
    funext i j
    fin_cases i <;> fin_cases j <;>
      norm_num [Matrix.mul_apply, Fin.sum_univ_four, Matrix.one_apply,
        Fin.ext_iff]
  have hdet : IsUnit (NaturalCubicSpline.A 2
      (fun i => if i = 0 then (0, 0) else (1, 1))).det :=
    Matrix.isUnit_det_of_right_inverse hinv
  exact (naturalCubicSpline_natural_boundary 2
    (fun i => if i = 0 then (0, 0) else (1, 1)) (by norm_num) hdet).1

/-- C10: every `(alpha, beta)` pair returned by `cosineLaw x y L1 L2`
(for positive link lengths, a nonzero target, and a target distance
within `[|L1 - L2|, L1 + L2]`) satisfies the planar two-link chain
equations `L1·cos α + L2·cos(α + β) = x` and
`L1·sin α + L2·sin(α + β) = y`. -/
theorem cosineLaw_reaches_target (x y L1 L2 : ℝ)
    (hL1 : 0 < L1) (hL2 : 0 < L2) (hxy : (x, y) ≠ ((0 : ℝ), (0 : ℝ)))
    (hlo : |L1 - L2| ≤ Real.sqrt (x ^ 2 + y ^ 2))
    (hhi : Real.sqrt (x ^ 2 + y ^ 2) ≤ L1 + L2) :
    (cosineLaw x y L1 L2).Forall fun s =>
      L1 * Real.cos s.1 + L2 * Real.cos (s.1 + s.2) = x ∧
      L1 * Real.sin s.1 + L2 * Real.sin (s.1 + s.2) = y := by
  have hxy' : x ≠ 0 ∨ y ≠ 0 := by
    by_contra h
    push_neg at h
    exact hxy (by rw [h.1, h.2])
  have hxy2 : 0 < x ^ 2 + y ^ 2 := by
    rcases hxy' with h | h
    · nlinarith [pow_two_pos_of_ne_zero h, sq_nonneg y]
    · nlinarith [pow_two_pos_of_ne_zero h, sq_nonneg x]
  rw [cosineLaw, if_neg (not_or.mpr ⟨not_lt.mpr hlo, not_lt.mpr hhi⟩)]
  set d := Real.sqrt (x ^ 2 + y ^ 2) with hddef
  have hd0 : 0 < d := Real.sqrt_pos.mpr hxy2
  have hd2 : d ^ 2 = x ^ 2 + y ^ 2 := Real.sq_sqrt hxy2.le
  have habs := abs_le.mp hlo
  have habsz : Complex.abs ⟨x, y⟩ = d := by
    rw [Complex.abs_apply, Complex.normSq_mk, hddef]
    congr 1
    ring
  clear_value d
  set u := (L1 ^ 2 + d ^ 2 - L2 ^ 2) / (2 * L1 * d) with hudef
  set v := (L1 ^ 2 + L2 ^ 2 - d ^ 2) / (2 * L1 * L2) with hvdef
  have hu2 : u ≤ 1 := by
    rw [hudef, div_le_one (by positivity)]
    nlinarith [mul_nonneg (by linarith : (0 : ℝ) ≤ L2 - L1 + d)
      (by linarith : (0 : ℝ) ≤ L2 + L1 - d)]
  have hu1 : -1 ≤ u := by
    rw [hudef, le_div_iff (by positivity)]
    nlinarith [mul_nonneg (by linarith : (0 : ℝ) ≤ L1 + d - L2)
      (by linarith : (0 : ℝ) ≤ L1 + d + L2)]
  have hv2 : v ≤ 1 := by
    rw [hvdef, div_le_one (by positivity)]
    nlinarith [mul_nonneg (by linarith : (0 : ℝ) ≤ d - L1 + L2)
      (by linarith : (0 : ℝ) ≤ d + L1 - L2)]
  have hv1 : -1 ≤ v := by
    rw [hvdef, le_div_iff (by positivity)]
    nlinarith [mul_nonneg (by linarith : (0 : ℝ) ≤ L1 + L2 - d)
      (by linarith : (0 : ℝ) ≤ L1 + L2 + d)]
  set su := Real.sqrt (1 - u ^ 2) with hsudef
  set sv := Real.sqrt (1 - v ^ 2) with hsvdef
  have hsu0 : 0 ≤ su := Real.sqrt_nonneg _
  have hsv0 : 0 ≤ sv := Real.sqrt_nonneg _
  have hsu2 : su ^ 2 = 1 - u ^ 2 := Real.sq_sqrt (by nlinarith)
  have hsv2 : sv ^ 2 = 1 - v ^ 2 := Real.sq_sqrt (by nlinarith)
  have hcu : Real.cos (Real.arccos u) = u := Real.cos_arccos hu1 hu2
  have hcv : Real.cos (Real.arccos v) = v := Real.cos_arccos hv1 hv2
  have hsuE : Real.sin (Real.arccos u) = su := Real.sin_arccos u
  have hsvE : Real.sin (Real.arccos v) = sv := Real.sin_arccos v
  clear_value u v su sv
  -- the two square roots are proportional: su·(2·L1·d) = sv·(2·L1·L2)
  have hK : su * (2 * L1 * d) = sv * (2 * L1 * L2) := by
    have hsq : (su * (2 * L1 * d)) ^ 2 = (sv * (2 * L1 * L2)) ^ 2 := by
      rw [mul_pow su (2 * L1 * d) 2, mul_pow sv (2 * L1 * L2) 2, hsu2, hsv2, hudef, hvdef]
      field_simp
      ring
    have hn1 : (0 : ℝ) ≤ su * (2 * L1 * d) :=
      mul_nonneg hsu0 (by positivity)
    have hn2 : (0 : ℝ) ≤ sv * (2 * L1 * L2) :=
      mul_nonneg hsv0 (by positivity)
    calc su * (2 * L1 * d) = Real.sqrt ((su * (2 * L1 * d)) ^ 2) :=
          (Real.sqrt_sq hn1).symm
      _ = Real.sqrt ((sv * (2 * L1 * L2)) ^ 2) := by rw [hsq]
      _ = sv * (2 * L1 * L2) := Real.sqrt_sq hn2
  have hsv_eq : sv = su * d / L2 := by
    have h2L1 : (2 * L1) ≠ 0 := by positivity
    have h1 : (2 * L1) * (sv * L2) = (2 * L1) * (su * d) := by
      linear_combination - hK
    have h2 : sv * L2 = su * d := mul_left_cancel₀ h2L1 h1
    field_simp [hL2.ne']
    linear_combination h2
  -- key chain equations at the elbow
  have hE1 : L1 * u - L2 * (u * v - su * sv) = d := by
    rw [hsv_eq]
    have hsq : su * (su * d / L2) = (1 - u ^ 2) * d / L2 := by
      rw [show su * (su * d / L2) = su ^ 2 * d / L2 by ring, hsu2]
    rw [show L1 * u - L2 * (u * v - su * (su * d / L2)) =
        L1 * u - L2 * u * v + L2 * (su * (su * d / L2)) by ring, hsq,
      hudef, hvdef]
    field_simp [hL1.ne', hL2.ne', hd0.ne']
    ring
  have hE2 : L1 * su - L2 * (su * v + u * sv) = 0 := by
    rw [hsv_eq, hudef, hvdef]
    field_simp [hL1.ne', hL2.ne', hd0.ne']
    ring
  -- the direction to the target
  have hz : (⟨x, y⟩ : ℂ) ≠ 0 := by
    simp only [ne_eq, Complex.ext_iff, Complex.zero_re, Complex.zero_im, not_and_or]
    rcases hxy' with h | h
    · exact Or.inl h
    · exact Or.inr h
  have hre : (⟨x, y⟩ : ℂ).re = x := rfl
  have him : (⟨x, y⟩ : ℂ).im = y := rfl
  have hcd : d * Real.cos (atan2 y x) = x := by
    rw [atan2, Complex.cos_arg hz, habsz, hre, mul_comm,
      div_mul_cancel₀ _ hd0.ne']
  have hsd : d * Real.sin (atan2 y x) = y := by
    rw [atan2, Complex.sin_arg, habsz, him, mul_comm,
      div_mul_cancel₀ _ hd0.ne']
  -- verify both emitted solutions
  have hP1 : L1 * Real.cos (atan2 y x + Real.arccos u) +
        L2 * Real.cos ((atan2 y x + Real.arccos u) + (Real.arccos v - Real.pi)) = x ∧
      L1 * Real.sin (atan2 y x + Real.arccos u) +
        L2 * Real.sin ((atan2 y x + Real.arccos u) + (Real.arccos v - Real.pi)) = y := by
    constructor
    · simp only [Real.cos_add, Real.sin_add, Real.cos_sub, Real.sin_sub,
        Real.cos_pi, Real.sin_pi, hcu, hcv, hsuE, hsvE]
      linear_combination Real.cos (atan2 y x) * hE1 -
        Real.sin (atan2 y x) * hE2 + hcd
    · simp only [Real.cos_add, Real.sin_add, Real.cos_sub, Real.sin_sub,
        Real.cos_pi, Real.sin_pi, hcu, hcv, hsuE, hsvE]
      linear_combination Real.sin (atan2 y x) * hE1 +
        Real.cos (atan2 y x) * hE2 + hsd
  have hP2 : L1 * Real.cos (atan2 y x - Real.arccos u) +
        L2 * Real.cos ((atan2 y x - Real.arccos u) + (Real.pi - Real.arccos v)) = x ∧
      L1 * Real.sin (atan2 y x - Real.arccos u) +
        L2 * Real.sin ((atan2 y x - Real.arccos u) + (Real.pi - Real.arccos v)) = y := by
    constructor
    · simp only [Real.cos_add, Real.sin_add, Real.cos_sub, Real.sin_sub,
        Real.cos_pi, Real.sin_pi, hcu, hcv, hsuE, hsvE]
      linear_combination Real.cos (atan2 y x) * hE1 +
        Real.sin (atan2 y x) * hE2 + hcd
    · simp only [Real.cos_add, Real.sin_add, Real.cos_sub, Real.sin_sub,
        Real.cos_pi, Real.sin_pi, hcu, hcv, hsuE, hsvE]
      linear_combination Real.sin (atan2 y x) * hE1 -
        Real.cos (atan2 y x) * hE2 + hsd
  show List.Forall _
    ((atan2 y x + Real.arccos u, Real.arccos v - Real.pi) ::
      if |Real.arccos u| > 1e-9 then
        [(atan2 y x - Real.arccos u, Real.pi - Real.arccos v)] else [])
  split_ifs with htol
  · exact ⟨hP1, hP2⟩
  · exact hP1

/-- C10 witness: `L1 = L2 = 1`, target `(1, 1)` (the spec's scenario 1):
the hypotheses hold (`|L1 - L2| = 0 ≤ √2 ≤ 2`) and every returned pair
reaches the target. -/
theorem cosineLaw_reaches_target_witness :
    (cosineLaw 1 1 1 1).Forall fun s =>
      1 * Real.cos s.1 + 1 * Real.cos (s.1 + s.2) = 1 ∧
      1 * Real.sin s.1 + 1 * Real.sin (s.1 + s.2) = 1 := by
  have h2 : Real.sqrt ((1 : ℝ) ^ 2 + 1 ^ 2) ≤ 1 + 1 := by
    calc Real.sqrt ((1 : ℝ) ^ 2 + 1 ^ 2) ≤ Real.sqrt (2 ^ 2) :=
        Real.sqrt_le_sqrt (by norm_num)
      _ = 2 := Real.sqrt_sq (by norm_num)
      _ = 1 + 1 := by norm_num
  exact cosineLaw_reaches_target 1 1 1 1 (by norm_num) (by norm_num)
    (by norm_num)
    (by rw [show |(1 : ℝ) - 1| = 0 by norm_num]; exact Real.sqrt_nonneg _)
    h2

end
